import Mathlib

/-! planetInSpace: the sphere mesh builder, the frame transforms and the key handler.

A shallow embedding of `src/main.cpp`.

* `uint` values are natural numbers below `UINT_RANGE = 2^32`; every `uint`
  operation of the source is written with its wrap-around (`uadd`, `usub`, `umul`).
* `for (uint k = 0; k < n; k++)` with `n` itself a `uint` runs its body for
  `k = 0, .., n-1` and the counter never wraps: it is `for_lt`.
* `for (uint k = 0; k <= n; k++)` may wrap its counter (when `n = 2^32 - 1`), so it
  is a fuelled loop, `for_le`, which answers `none` when the fuel runs out.
* `float` arithmetic is read in an arbitrary field `F` with the three library
  values `PI`, `cos`, `sin` passed as arguments; the theorems take `F = ℝ` or `ℚ`.
-/

namespace PlanetInSpace

/-! ## 32-bit unsigned arithmetic -/

/-- The number of values of the 32-bit `uint`. -/
def UINT_RANGE : Nat := 4294967296

/-- The `uint` sum `a + b`. -/
def uadd (a b : Nat) : Nat := (a + b) % UINT_RANGE

/-- The `uint` difference `a - b` (for `a, b < UINT_RANGE`). -/
def usub (a b : Nat) : Nat := (a + UINT_RANGE - b) % UINT_RANGE

/-- The `uint` product `a * b`. -/
def umul (a b : Nat) : Nat := (a * b) % UINT_RANGE

/-- The loop `for (uint k = 0; k < n; k++) s = body k s`. -/
def for_lt {σ : Type} (n : Nat) (body : Nat → σ → σ) (s : σ) : σ :=
  (List.range n).foldl (fun acc k => body k acc) s

/-- The loop `for (uint k = k0; k <= n; k++) s = body k s`, whose counter wraps at
`UINT_RANGE`; the body may itself fail to finish. `none` when `fuel` iterations were
not enough. -/
def for_le_from {σ : Type} (fuel n k : Nat) (body : Nat → σ → Option σ) (s : σ) : Option σ :=
  match fuel with
  | 0 => none
  | fuel + 1 =>
    if k ≤ n then (body k s).bind (fun s1 => for_le_from fuel n (uadd k 1) body s1)
    else some s

/-- The loop `for (uint k = 0; k <= n; k++) s = body k s`. -/
def for_le {σ : Type} (fuel n : Nat) (body : Nat → σ → Option σ) (s : σ) : Option σ :=
  for_le_from fuel n 0 body s

/-! ## `update_index_buffer` and the draw count of `render` -/

/-- The body of the inner loop of `update_index_buffer` (main.cpp:154-166): the
`push_back`s for the quad `(i, j)`. -/
def index_body (NUM_TESS i j : Nat) (indices : List Nat) : List Nat :=
  let indices :=
    if i ≠ 0 then
      indices ++
        [uadd (umul i (uadd NUM_TESS 1)) j,
         uadd (umul (uadd i 1) (uadd NUM_TESS 1)) j,
         uadd (uadd (umul i (uadd NUM_TESS 1)) j) 1]
    else indices
  if i ≠ usub NUM_TESS 1 then
    indices ++
      [uadd (uadd (umul i (uadd NUM_TESS 1)) j) 1,
       uadd (umul (uadd i 1) (uadd NUM_TESS 1)) j,
       uadd (uadd (umul (uadd i 1) (uadd NUM_TESS 1)) j) 1]
  else indices

/-- The index-generation loop of `update_index_buffer` (main.cpp:149-168). -/
def index_loop (NUM_TESS : Nat) : List Nat :=
  for_lt (NUM_TESS / 2)
    (fun i indices => for_lt NUM_TESS (fun j indices => index_body NUM_TESS i j indices) indices)
    []

/-- The function `update_index_buffer` (main.cpp:136-184), as the data it hands to the
two `glBufferData` calls: the error message of the early return, or the uploaded
vertex sequence and index sequence. -/
def update_index_buffer {V : Type} (NUM_TESS : Nat) (vertices : List V) :
    Except String (List V × List Nat) :=
  if vertices.isEmpty then .error "[error] vertices is empty.\n"
  else .ok (vertices, index_loop NUM_TESS)

/-- The index count `NUM_TESS * (NUM_TESS/2-1) * 6` that `render` passes to
`glDrawElements` (main.cpp:93): the value of the `uint` expression. -/
def render_index_count (NUM_TESS : Nat) : Nat :=
  umul (umul NUM_TESS (usub (NUM_TESS / 2) 1)) 6

/-- The indices that `index_body` appends for the quad `(i, j)`. -/
def quad (NUM_TESS i j : Nat) : List Nat := index_body NUM_TESS i j []

/-- The row of the vertex grid that the linear index `k` lies in. -/
def row_of (NUM_TESS k : Nat) : Nat := k / (NUM_TESS + 1)

/-! ## `create_sphere_vertices` -/

/-- Modelled from the spec: the type `vec2` of cgmath.h, two floats. -/
structure vec2 (F : Type) where
  x : F
  y : F

/-- Modelled from the spec: the type `vec3` of cgmath.h, three floats. -/
structure vec3 (F : Type) where
  x : F
  y : F
  z : F

/-- Modelled from the spec: the type `vertex` of cgmath.h, with its three attributes
position, normal and texture coordinate in record order. -/
structure vertex (F : Type) where
  pos : vec3 F
  norm : vec3 F
  tex : vec2 F

/-- The body of the inner loop of `create_sphere_vertices` (main.cpp:128-129): `tj`,
`cj`, `sj` and the `push_back` for the grid cell of row values `ti`, `ci`, `si` and
column `j`. -/
def vertex_body {F : Type} [Field F] (PI : F) (cos sin : F → F) (NUM_TESS : Nat)
    (ti ci si : F) (j : Nat) (v : List (vertex F)) : List (vertex F) :=
  let tj := PI * 2 * (j : F) / (NUM_TESS : F)
  let cj := cos tj
  let sj := sin tj
  v ++ [{ pos := ⟨si * cj, si * sj, ci⟩, norm := ⟨si * cj, si * sj, ci⟩,
          tex := ⟨tj / (2 * PI), 1 - ti / PI⟩ }]

/-- The body of the outer loop of `create_sphere_vertices` (main.cpp:125-130): `ti`,
`ci`, `si` and the inner loop over the columns. -/
def row_body {F : Type} [Field F] (PI : F) (cos sin : F → F) (fuel NUM_TESS : Nat)
    (i : Nat) (v : List (vertex F)) : Option (List (vertex F)) :=
  let ti := PI * (i : F) / ((NUM_TESS / 2 : Nat) : F)
  let ci := cos ti
  let si := sin ti
  for_le fuel NUM_TESS (fun j v => some (vertex_body PI cos sin NUM_TESS ti ci si j v)) v

/-- The function `create_sphere_vertices` (main.cpp:120-134). -/
def create_sphere_vertices {F : Type} [Field F] (PI : F) (cos sin : F → F)
    (fuel NUM_TESS : Nat) : Option (List (vertex F)) :=
  for_le fuel (NUM_TESS / 2) (fun i v => row_body PI cos sin fuel NUM_TESS i v) []

/-- The vertex that `create_sphere_vertices` pushes for the grid cell `(i, j)`. -/
def grid_vertex {F : Type} [Field F] (PI : F) (cos sin : F → F) (NUM_TESS i j : Nat) :
    vertex F :=
  let ti := PI * (i : F) / ((NUM_TESS / 2 : Nat) : F)
  let tj := PI * 2 * (j : F) / (NUM_TESS : F)
  { pos := ⟨sin ti * cos tj, sin ti * sin tj, cos ti⟩,
    norm := ⟨sin ti * cos tj, sin ti * sin tj, cos ti⟩,
    tex := ⟨tj / (2 * PI), 1 - ti / PI⟩ }

/-- The mesh build of `user_init` (main.cpp:242-245): `create_sphere_vertices`, then
`update_index_buffer` on its result. -/
def build_mesh {F : Type} [Field F] (PI : F) (cos sin : F → F) (fuel NUM_TESS : Nat) :
    Option (Except String (List (vertex F) × List Nat)) :=
  (create_sphere_vertices PI cos sin fuel NUM_TESS).map (update_index_buffer NUM_TESS)

/-! ## The file-scope state, `keyboard`, `update` and `render` -/

/-- The file-scope variables of main.cpp that the key handler and the frame functions
read and write (`color_xy` is an `int`, read here as an integer), with the window's
close flag. -/
structure Globals (F : Type) where
  color_xy : Int
  t0 : F
  t1 : F
  theta : F
  b_rotate : Bool
  b_wireframe : Bool
  should_close : Bool

/-- The initial values of the file-scope variables (main.cpp:24-31). -/
def initial_globals (F : Type) [Field F] : Globals F :=
  { color_xy := 3, t0 := 0, t1 := 0, theta := 0, b_rotate := false, b_wireframe := false,
    should_close := false }

/-- The GLFW constant `GLFW_PRESS`. -/
def GLFW_PRESS : Int := 1
/-- The GLFW constant `GLFW_KEY_ESCAPE`. -/
def GLFW_KEY_ESCAPE : Int := 256
/-- The GLFW constant `GLFW_KEY_F1`. -/
def GLFW_KEY_F1 : Int := 290
/-- The GLFW constant `GLFW_KEY_D`. -/
def GLFW_KEY_D : Int := 68
/-- The GLFW constant `GLFW_KEY_H`. -/
def GLFW_KEY_H : Int := 72
/-- The GLFW constant `GLFW_KEY_Q`. -/
def GLFW_KEY_Q : Int := 81
/-- The GLFW constant `GLFW_KEY_R`. -/
def GLFW_KEY_R : Int := 82
/-- The GLFW constant `GLFW_KEY_W`. -/
def GLFW_KEY_W : Int := 87

/-- The key callback `keyboard` (main.cpp:186-215) on the file-scope variables; the
`printf` output is left out. -/
def keyboard {F : Type} (key action : Int) (g : Globals F) : Globals F :=
  if action = GLFW_PRESS then
    if key = GLFW_KEY_ESCAPE ∨ key = GLFW_KEY_Q then { g with should_close := true }
    else if key = GLFW_KEY_H ∨ key = GLFW_KEY_F1 then g
    else if key = GLFW_KEY_D then
      { g with color_xy := if g.color_xy = 3 then 1 else g.color_xy + 1 }
    else if key = GLFW_KEY_R then { g with b_rotate := !g.b_rotate }
    else if key = GLFW_KEY_W then { g with b_wireframe := !g.b_wireframe }
    else g
  else g

/-- The timing part of `update` (main.cpp:41-42); `now1` and `now2` are the values of
its two `glfwGetTime()` calls. -/
def update {F : Type} [Field F] (now1 now2 : F) (g : Globals F) : Globals F :=
  let g := { g with t1 := now1 * 0.4 - g.t0 }
  { g with t0 := now2 * 0.4 }

/-- The state change of `render` (main.cpp:80). -/
def render {F : Type} [Field F] (g : Globals F) : Globals F :=
  if g.b_rotate then { g with theta := g.theta + g.t1 } else g

/-- One pass of the loop body of `main` after the event poll (main.cpp:276-277) when
both clock reads of `update` give `now`. -/
def frame {F : Type} [Field F] (now : F) (g : Globals F) : Globals F :=
  render (update now now g)

/-- Consecutive frames without a key event between them, one per clock value. -/
def frames {F : Type} [Field F] (nows : List F) (g : Globals F) : Globals F :=
  nows.foldl (fun g now => frame now g) g

/-- The clock read of `user_init` (main.cpp:247), which sets `t0`. -/
def user_init_clock {F : Type} [Field F] (now : F) (g : Globals F) : Globals F :=
  { g with t0 := now * 0.4 }

/-- The matrix `aspect_matrix` that `update` computes from `window_size`
(main.cpp:45-52), in the row-major order of the literal. `mat4` is read as a 4x4
matrix and cgmath's `min` as the minimum of the order. -/
def aspect_matrix {F : Type} [LinearOrderedField F] (width height : Int) :
    Matrix (Fin 4) (Fin 4) F :=
  let aspect : F := (width : F) / (height : F)
  !![min (1 / aspect) 1, 0, 0, 0;
     0, min aspect 1, 0, 0;
     0, 0, 1, 0;
     0, 0, 0, 1]

/-! ## Lemmas on the index loop -/

theorem foldl_append_flatMap {α β : Type} (f : List β → α → List β) (g : α → List β)
    (hf : ∀ acc x, f acc x = acc ++ g x) (l : List α) (acc : List β) :
    l.foldl f acc = acc ++ l.flatMap g := by
  induction l generalizing acc with
  | nil => simp
  | cons x xs ih => simp [List.foldl_cons, ih, hf, List.flatMap_cons, List.append_assoc]

theorem index_body_eq (N i j : Nat) (acc : List Nat) :
    index_body N i j acc = acc ++ quad N i j := by
  unfold quad index_body
  by_cases h1 : i ≠ 0 <;> by_cases h2 : i ≠ usub N 1 <;> simp [h1, h2]

/-- The index loop is the concatenation of the quads in loop order. -/
theorem index_loop_eq (N : Nat) :
    index_loop N = (List.range (N / 2)).flatMap
      (fun i => (List.range N).flatMap (fun j => quad N i j)) := by
  unfold index_loop for_lt
  rw [foldl_append_flatMap (fun acc i => (List.range N).foldl
        (fun acc j => index_body N i j acc) acc)
      (fun i => (List.range N).flatMap (fun j => quad N i j))]
  · simp
  · intro acc i
    exact foldl_append_flatMap _ _ (fun acc j => index_body_eq N i j acc) _ _

theorem flatMap_length_const {α β : Type} (g : α → List β) (c : Nat) (l : List α)
    (h : ∀ x ∈ l, (g x).length = c) : (l.flatMap g).length = l.length * c := by
  induction l with
  | nil => simp
  | cons x xs ih =>
    have hx : (g x).length = c := h x (by simp)
    have hxs : ∀ y ∈ xs, (g y).length = c := fun y hy => h y (by simp [hy])
    simp [List.flatMap_cons, ih hxs, hx, Nat.succ_mul, Nat.add_comm]

theorem usub_one (n : Nat) (h0 : 0 < n) (hR : n < UINT_RANGE) : usub n 1 = n - 1 := by
  unfold usub
  have : n + UINT_RANGE - 1 = (n - 1) + UINT_RANGE := by omega
  rw [this, Nat.add_mod_right, Nat.mod_eq_of_lt (by omega)]

/-- Inside the loop bounds the second guard `i != NUM_TESS - 1` always holds. -/
theorem guard_always (N i : Nat) (hN : 2 ≤ N) (hR : N < UINT_RANGE) (hi : i < N / 2) :
    i ≠ usub N 1 := by
  rw [usub_one N (by omega) hR]
  omega

theorem quad_length (N i j : Nat) (hN : 2 ≤ N) (hR : N < UINT_RANGE) (hi : i < N / 2) :
    (quad N i j).length = if i = 0 then 3 else 6 := by
  have hg := guard_always N i hN hR hi
  unfold quad index_body
  by_cases h1 : i = 0
  · subst h1
    simp [hg]
  · simp [h1, hg]

theorem strip_length (N i : Nat) (hN : 2 ≤ N) (hR : N < UINT_RANGE) (hi : i < N / 2) :
    ((List.range N).flatMap (fun j => quad N i j)).length = N * (if i = 0 then 3 else 6) := by
  rw [flatMap_length_const _ (if i = 0 then 3 else 6) _
    (fun j _ => quad_length N i j hN hR hi)]
  simp

theorem strips_length (N m : Nat) (hN : 2 ≤ N) (hR : N < UINT_RANGE) (hm : m ≤ N / 2)
    (hm1 : 1 ≤ m) :
    ((List.range m).flatMap
      (fun i => (List.range N).flatMap (fun j => quad N i j))).length + 3 * N
      = 6 * N * m := by
  induction m with
  | zero => omega
  | succ k ih =>
    rw [List.range_succ, List.flatMap_append, List.length_append]
    simp only [List.flatMap_cons, List.flatMap_nil, List.append_nil]
    rw [strip_length N k hN hR (by omega)]
    by_cases hk : k = 0
    · subst hk
      simp
      ring
    · have := ih (by omega) (by omega)
      simp only [hk, if_false]
      have e : 6 * N * (k + 1) = 6 * N * k + N * 6 := by ring
      omega

/-- The length of the index sequence the loop builds. -/
theorem index_loop_length (N : Nat) (hN : 2 ≤ N) (hR : N < UINT_RANGE) :
    (index_loop N).length = N * (N / 2 - 1) * 6 + 3 * N := by
  have h := strips_length N (N / 2) hN hR (le_refl _) (by omega)
  rw [index_loop_eq]
  obtain ⟨m, hm⟩ : ∃ m, N / 2 = m + 1 := ⟨N / 2 - 1, by omega⟩
  rw [hm] at h ⊢
  have e1 : 6 * N * (m + 1) = 6 * N * m + 6 * N := by ring
  have e2 : N * (m + 1 - 1) * 6 = 6 * N * m := by simp; ring
  omega

/-- The draw count when the `uint` product does not wrap. -/
theorem render_index_count_eq (N : Nat) (hN : 2 ≤ N)
    (hw : N * (N / 2 - 1) * 6 < UINT_RANGE) :
    render_index_count N = N * (N / 2 - 1) * 6 := by
  have hR : N / 2 < UINT_RANGE := by
    by_contra hc
    have h1 : UINT_RANGE ≤ N := by omega
    have h2 : 1 ≤ N / 2 - 1 := by unfold UINT_RANGE at hc; omega
    have h3 : N * 1 ≤ N * (N / 2 - 1) := Nat.mul_le_mul_left _ h2
    omega
  unfold render_index_count umul
  rw [usub_one _ (by omega) hR]
  have h4 : N * (N / 2 - 1) ≤ N * (N / 2 - 1) * 6 := by omega
  have h5 : N * (N / 2 - 1) < UINT_RANGE := by omega
  rw [Nat.mod_eq_of_lt h5, Nat.mod_eq_of_lt hw]

theorem uadd_eq (a b : Nat) (h : a + b < UINT_RANGE) : uadd a b = a + b :=
  Nat.mod_eq_of_lt h

theorem umul_eq (a b : Nat) (h : a * b < UINT_RANGE) : umul a b = a * b :=
  Nat.mod_eq_of_lt h

/-- The indices of a quad when no `uint` operation wraps. -/
theorem quad_nowrap (N i j : Nat) (hN : 2 ≤ N) (hw : (N / 2) * (N + 1) + N < UINT_RANGE)
    (hi : i < N / 2) (hj : j < N) :
    quad N i j =
      (if i = 0 then [] else [i * (N + 1) + j, (i + 1) * (N + 1) + j, i * (N + 1) + j + 1])
        ++ [i * (N + 1) + j + 1, (i + 1) * (N + 1) + j, (i + 1) * (N + 1) + j + 1] := by
  have hmul : (i + 1) * (N + 1) ≤ (N / 2) * (N + 1) := Nat.mul_le_mul_right _ hi
  have hsucc : (i + 1) * (N + 1) = i * (N + 1) + (N + 1) := by ring
  have hpos : 0 < (N / 2) * (N + 1) := Nat.mul_pos (by omega) (by omega)
  have hR : N < UINT_RANGE := by omega
  have hg := guard_always N i hN hR hi
  have e1 : uadd N 1 = N + 1 := uadd_eq _ _ (by omega)
  have e2 : uadd i 1 = i + 1 := uadd_eq _ _ (by omega)
  have e3 : umul i (N + 1) = i * (N + 1) := umul_eq _ _ (by omega)
  have e4 : umul (i + 1) (N + 1) = (i + 1) * (N + 1) := umul_eq _ _ (by omega)
  have e5 : uadd (i * (N + 1)) j = i * (N + 1) + j := uadd_eq _ _ (by omega)
  have e6 : uadd ((i + 1) * (N + 1)) j = (i + 1) * (N + 1) + j := uadd_eq _ _ (by omega)
  have e7 : uadd (i * (N + 1) + j) 1 = i * (N + 1) + j + 1 := uadd_eq _ _ (by omega)
  have e8 : uadd ((i + 1) * (N + 1) + j) 1 = (i + 1) * (N + 1) + j + 1 :=
    uadd_eq _ _ (by omega)
  unfold quad index_body
  simp only [e1, e2, e3, e4, e5, e6, e7, e8]
  by_cases h0 : i = 0
  · subst h0
    simp [hg]
  · simp [h0, hg]

theorem row_of_eq (N i j : Nat) (hj : j ≤ N) : row_of N (i * (N + 1) + j) = i := by
  unfold row_of
  rw [Nat.add_comm, Nat.add_mul_div_right _ _ (by omega), Nat.div_eq_of_lt (by omega)]
  simp

/-! ## The claims on the index buffer -/

/-- C3: for every N >= 2 for which the 32-bit index arithmetic does not wrap, every entry
of the index sequence built by `update_index_buffer` is strictly below
`(N/2 + 1) * (N + 1)`, the number of vertices. -/
theorem C3_indices_in_range (N : Nat) (hN : 2 ≤ N)
    (hw : (N / 2 + 1) * (N + 1) ≤ UINT_RANGE) :
    ∀ x ∈ index_loop N, x < (N / 2 + 1) * (N + 1) := by
  intro x hx
  have hV : (N / 2 + 1) * (N + 1) = (N / 2) * (N + 1) + (N + 1) := by ring
  rw [index_loop_eq] at hx
  obtain ⟨i, hi, hx⟩ := List.mem_flatMap.mp hx
  obtain ⟨j, hj, hx⟩ := List.mem_flatMap.mp hx
  rw [List.mem_range] at hi hj
  rw [quad_nowrap N i j hN (by omega) hi hj] at hx
  have hmul : (i + 1) * (N + 1) ≤ (N / 2) * (N + 1) := Nat.mul_le_mul_right _ hi
  have hsucc : (i + 1) * (N + 1) = i * (N + 1) + (N + 1) := by ring
  by_cases h0 : i = 0
  · simp [h0] at hx
    rcases hx with h | h | h <;> omega
  · simp [h0] at hx
    rcases hx with h | h | h | h | h | h <;> omega

/-- Witness of C3 at the program's own tessellation factor, N = 50. -/
theorem C3_indices_in_range_witness :
    (index_loop 50).all (fun x => decide (x < (50 / 2 + 1) * (50 + 1))) = true :=
  List.all_eq_true.mpr (fun x hx =>
    decide_eq_true (C3_indices_in_range 50 (by decide) (by decide) x hx))

/-- C1: the length of the index sequence that the loop of `update_index_buffer` builds
is `N * (N/2 - 1) * 6 + 3 * N` for every N >= 2, which is not the count
`N * (N/2 - 1) * 6` of the claim: the guard `i != NUM_TESS - 1` never skips a strip. -/
theorem C1_index_loop_length (N : Nat) (hN : 2 ≤ N) (hR : N < UINT_RANGE) :
    (index_loop N).length = N * (N / 2 - 1) * 6 + 3 * N ∧
      (index_loop N).length ≠ N * (N / 2 - 1) * 6 := by
  have h := index_loop_length N hN hR
  exact ⟨h, by omega⟩

/-- Witness of C1 at N = 50: 7350 indices are built and 7200 are drawn. -/
theorem C1_index_loop_length_witness :
    (index_loop 50).length = 7350 ∧ (index_loop 50).length ≠ 7200 ∧
      render_index_count 50 = 7200 :=
  ⟨(C1_index_loop_length 50 (by decide) (by decide)).1,
   (C1_index_loop_length 50 (by decide) (by decide)).2, by decide⟩

/-- C2: for every even N >= 4 (without wrap) and every j < N, the quad of the top-pole
strip contributes the single triangle (C, B, D), but the quad of the bottom-pole strip
`i = N/2 - 1` contributes two triangles, (A, B, C) and (C, B, D), and the second has
its vertices B and D both in the pole row `N/2`. -/
theorem C2_pole_strips (N j : Nat) (hN : 4 ≤ N) (he : N % 2 = 0)
    (hw : (N / 2) * (N + 1) + N < UINT_RANGE) (hj : j < N) :
    quad N 0 j = [0 * (N + 1) + j + 1, (0 + 1) * (N + 1) + j, (0 + 1) * (N + 1) + j + 1] ∧
    quad N (N / 2 - 1) j =
      [(N / 2 - 1) * (N + 1) + j, (N / 2 - 1 + 1) * (N + 1) + j, (N / 2 - 1) * (N + 1) + j + 1,
       (N / 2 - 1) * (N + 1) + j + 1, (N / 2 - 1 + 1) * (N + 1) + j,
       (N / 2 - 1 + 1) * (N + 1) + j + 1] ∧
    row_of N ((N / 2 - 1 + 1) * (N + 1) + j) = N / 2 ∧
    row_of N ((N / 2 - 1 + 1) * (N + 1) + j + 1) = N / 2 := by
  have hm : N / 2 - 1 + 1 = N / 2 := by omega
  refine ⟨?_, ?_, ?_, ?_⟩
  · rw [quad_nowrap N 0 j (by omega) hw (by omega) hj]
    simp
  · rw [quad_nowrap N (N / 2 - 1) j (by omega) hw (by omega) hj]
    have : N / 2 - 1 ≠ 0 := by omega
    simp [this]
  · rw [hm]
    exact row_of_eq N (N / 2) j (by omega)
  · rw [hm, Nat.add_assoc]
    exact row_of_eq N (N / 2) (j + 1) (by omega)

/-- Witness of C2 at N = 4, j = 0: the bottom strip is `i = 1`, its quad emits
(5, 10, 6) and (6, 10, 11), and 10 and 11 both lie in the pole row 2. -/
theorem C2_pole_strips_witness :
    quad 4 0 0 = [1, 5, 6] ∧ quad 4 1 0 = [5, 10, 6, 6, 10, 11] ∧
      row_of 4 10 = 2 ∧ row_of 4 11 = 2 :=
  C2_pole_strips 4 0 (by decide) (by decide) (by decide) (by decide)

/-- The index loop against the draw count, for even N >= 4 whose draw count does not
wrap: the loop builds `3 * N` entries more than are drawn, and the entries past the draw
count are the six indices of every quad `j >= N/2` of the last strip, in loop order. -/
theorem index_loop_tail (N : Nat) (hN : 4 ≤ N) (he : N % 2 = 0)
    (hw : N * (N / 2 - 1) * 6 < UINT_RANGE) :
    render_index_count N ≤ (index_loop N).length ∧
    (index_loop N).length = render_index_count N + 3 * N ∧
    (index_loop N).drop (render_index_count N) =
      (List.range' (N / 2) (N / 2)).flatMap (fun j =>
        [(N / 2 - 1) * (N + 1) + j, (N / 2 - 1 + 1) * (N + 1) + j,
         (N / 2 - 1) * (N + 1) + j + 1,
         (N / 2 - 1) * (N + 1) + j + 1, (N / 2 - 1 + 1) * (N + 1) + j,
         (N / 2 - 1 + 1) * (N + 1) + j + 1]) := by
  obtain ⟨k, rfl⟩ : ∃ k, N = 2 * (k + 2) := ⟨N / 2 - 2, by omega⟩
  have hhalf : 2 * (k + 2) / 2 = k + 2 := by omega
  rw [hhalf] at hw ⊢
  have hm : k + 2 - 1 = k + 1 := by omega
  rw [hm] at hw ⊢
  have hidx : (2 * (k + 2)) / 2 * (2 * (k + 2) + 1) + 2 * (k + 2) < UINT_RANGE := by
    rw [hhalf]
    have : (k + 2) * (2 * (k + 2) + 1) + 2 * (k + 2) ≤ 2 * (k + 2) * (k + 1) * 6 := by
      nlinarith
    exact lt_of_le_of_lt this hw
  have hR : 2 * (k + 2) < UINT_RANGE := by omega
  have hc : render_index_count (2 * (k + 2)) = 2 * (k + 2) * (k + 1) * 6 := by
    have := render_index_count_eq (2 * (k + 2)) (by omega) (by rw [hhalf, hm]; exact hw)
    rw [hhalf, hm] at this
    exact this
  have hlen := index_loop_length (2 * (k + 2)) (by omega) hR
  rw [hhalf, hm] at hlen
  refine ⟨by omega, by omega, ?_⟩
  rw [hc, index_loop_eq, hhalf]
  have hr1 : List.range (k + 2) = List.range (k + 1) ++ [k + 1] := List.range_succ _
  have hr2 : List.range (2 * (k + 2)) =
      List.range (k + 2) ++ List.range' (k + 2) (k + 2) := by
    have e : 2 * (k + 2) = (k + 2) + (k + 2) := by omega
    rw [e, List.range_add, List.range'_eq_map_range]
  rw [hr1, List.flatMap_append]
  simp only [List.flatMap_cons, List.flatMap_nil, List.append_nil]
  have hS : (List.range (2 * (k + 2))).flatMap (fun j => quad (2 * (k + 2)) (k + 1) j) =
      (List.range (k + 2)).flatMap (fun j => quad (2 * (k + 2)) (k + 1) j) ++
        (List.range' (k + 2) (k + 2)).flatMap (fun j => quad (2 * (k + 2)) (k + 1) j) := by
    rw [hr2, List.flatMap_append]
  rw [hS, ← List.append_assoc]
  have hA := strips_length (2 * (k + 2)) (k + 1) (by omega) hR (by omega) (by omega)
  have hB : ((List.range (k + 2)).flatMap (fun j => quad (2 * (k + 2)) (k + 1) j)).length
      = (k + 2) * 6 := by
    rw [flatMap_length_const _ 6 _ (fun j _ => by
      rw [quad_length (2 * (k + 2)) (k + 1) j (by omega) hR (by omega)]
      simp)]
    simp
  rw [List.drop_left' (by
    rw [List.length_append, hB]
    have e : 6 * (2 * (k + 2)) * (k + 1) = 2 * (k + 2) * (k + 1) * 6 := by ring
    omega)]
  apply List.flatMap_congr
  intro j hj
  rw [List.mem_range'_1] at hj
  rw [quad_nowrap (2 * (k + 2)) (k + 1) j (by omega) hidx (by omega) (by omega)]
  simp

/-! ## Lemmas on the vertex loops -/

/-- A `<=` loop whose bound is below `UINT_RANGE - 1` and whose body always finishes
runs its body for `k, .., n` once the fuel exceeds the number of iterations. -/
theorem for_le_from_some {σ : Type} (n : Nat) (hn : n + 1 < UINT_RANGE)
    (body : Nat → σ → Option σ) (g : Nat → σ → σ)
    (hb : ∀ k s, k ≤ n → body k s = some (g k s)) :
    ∀ (d fuel k : Nat) (s : σ), k + d = n + 1 → d < fuel →
      for_le_from fuel n k body s = some ((List.range' k d).foldl (fun s k => g k s) s) := by
  intro d
  induction d with
  | zero =>
    intro fuel k s hk hf
    obtain ⟨f, rfl⟩ : ∃ f, fuel = f + 1 := ⟨fuel - 1, by omega⟩
    have : ¬ k ≤ n := by omega
    simp [for_le_from, this]
  | succ d ih =>
    intro fuel k s hk hf
    obtain ⟨f, rfl⟩ : ∃ f, fuel = f + 1 := ⟨fuel - 1, by omega⟩
    have hkn : k ≤ n := by omega
    have hu : uadd k 1 = k + 1 := uadd_eq _ _ (by omega)
    rw [for_le_from, if_pos hkn, hb k s hkn, Option.some_bind, hu,
      ih f (k + 1) (g k s) (by omega) (by omega), List.range'_succ, List.foldl_cons]

/-- A `<=` loop with the bound `UINT_RANGE - 1` never leaves when its body always
finishes: every amount of fuel runs out. -/
theorem for_le_from_wrap {σ : Type} (body : Nat → σ → Option σ)
    (hb : ∀ k s, ∃ s1, body k s = some s1) :
    ∀ (fuel k : Nat) (s : σ), k < UINT_RANGE →
      for_le_from fuel (UINT_RANGE - 1) k body s = none := by
  intro fuel
  induction fuel with
  | zero => intro k s _; rfl
  | succ f ih =>
    intro k s hk
    obtain ⟨s1, hs1⟩ := hb k s
    have hkn : k ≤ UINT_RANGE - 1 := by omega
    rw [for_le_from, if_pos hkn, hs1, Option.some_bind]
    exact ih _ _ (Nat.mod_lt _ (by decide))

theorem row_body_eq {F : Type} [Field F] (PI : F) (cos sin : F → F) (N fuel i : Nat)
    (hR : N + 1 < UINT_RANGE) (hf : N + 1 < fuel) (v : List (vertex F)) :
    row_body PI cos sin fuel N i v =
      some (v ++ (List.range (N + 1)).map (fun j => grid_vertex PI cos sin N i j)) := by
  unfold row_body for_le
  simp only []
  rw [for_le_from_some N hR _
    (fun j v => vertex_body PI cos sin N (PI * (i : F) / ((N / 2 : Nat) : F))
      (cos (PI * (i : F) / ((N / 2 : Nat) : F))) (sin (PI * (i : F) / ((N / 2 : Nat) : F))) j v)
    (fun _ _ _ => rfl) (N + 1) fuel 0 v (by omega) hf]
  rw [← List.range_eq_range', List.map_eq_flatMap]
  exact congrArg some (foldl_append_flatMap _ _ (fun acc j => rfl) _ _)

/-- The vertex sequence is the grid in row-major order, for every tessellation factor
below `UINT_RANGE - 1` and enough fuel. -/
theorem create_sphere_vertices_eq {F : Type} [Field F] (PI : F) (cos sin : F → F)
    (N fuel : Nat) (hR : N + 1 < UINT_RANGE) (hf : N + 1 < fuel) :
    create_sphere_vertices PI cos sin fuel N =
      some ((List.range (N / 2 + 1)).flatMap
        (fun i => (List.range (N + 1)).map (fun j => grid_vertex PI cos sin N i j))) := by
  unfold create_sphere_vertices for_le
  rw [for_le_from_some (N / 2) (by omega) _
    (fun i v => v ++ (List.range (N + 1)).map (fun j => grid_vertex PI cos sin N i j))
    (fun i v _ => row_body_eq PI cos sin N fuel i hR hf v) (N / 2 + 1) fuel 0 []
    (by omega) (by omega)]
  rw [← List.range_eq_range']
  exact congrArg some (by
    rw [foldl_append_flatMap _
      (fun i => (List.range (N + 1)).map (fun j => grid_vertex PI cos sin N i j))
      (fun acc i => rfl)]
    simp)

theorem getElem?_flatMap_rows {β : Type} (c : Nat) (row : Nat → List β)
    (hc : ∀ i, (row i).length = c) (m i j : Nat) (hi : i < m) (hj : j < c) :
    ((List.range m).flatMap row)[i * c + j]? = (row i)[j]? := by
  induction m with
  | zero => omega
  | succ m ih =>
    have hlen : ((List.range m).flatMap row).length = m * c := by
      rw [flatMap_length_const row c _ (fun x _ => hc x)]
      simp
    rw [List.range_succ, List.flatMap_append]
    simp only [List.flatMap_cons, List.flatMap_nil, List.append_nil]
    by_cases him : i < m
    · have h1 : (i + 1) * c ≤ m * c := Nat.mul_le_mul_right _ him
      have h2 : (i + 1) * c = i * c + c := by ring
      rw [List.getElem?_append_left (by omega)]
      exact ih him
    · have him2 : i = m := by omega
      subst him2
      rw [List.getElem?_append_right (by omega), hlen]
      congr 1
      omega

/-- The length of the grid and the vertex at each of its cells. -/
theorem grid_layout {F : Type} [Field F] (PI : F) (cos sin : F → F) (N : Nat) :
    ((List.range (N / 2 + 1)).flatMap
      (fun i => (List.range (N + 1)).map (fun j => grid_vertex PI cos sin N i j))).length
        = (N / 2 + 1) * (N + 1) ∧
    ∀ i j, i ≤ N / 2 → j ≤ N →
      ((List.range (N / 2 + 1)).flatMap
        (fun i => (List.range (N + 1)).map (fun j => grid_vertex PI cos sin N i j)))[
          i * (N + 1) + j]? = some (grid_vertex PI cos sin N i j) := by
  constructor
  · rw [flatMap_length_const _ (N + 1) _ (fun i _ => by simp)]
    simp
  · intro i j hi hj
    rw [getElem?_flatMap_rows (N + 1) _ (fun i => by simp) (N / 2 + 1) i j (by omega)
      (by omega)]
    rw [List.getElem?_map, List.getElem?_range (by omega)]
    rfl

/-- For N < 2 the build uploads the `N + 1` vertices with an empty index sequence. -/
theorem build_mesh_small {F : Type} [Field F] (PI : F) (cos sin : F → F) (N fuel : Nat)
    (hN : N < 2) (hf : N + 1 < fuel) :
    ∃ v, build_mesh PI cos sin fuel N = some (.ok (v, [])) ∧ v.length = N + 1 := by
  have hR : N + 1 < UINT_RANGE := by unfold UINT_RANGE; omega
  have hlen := (grid_layout PI cos sin N).1
  have hdiv : N / 2 = 0 := by omega
  refine ⟨_, ?_, hlen.trans (by rw [hdiv]; omega)⟩
  unfold build_mesh
  rw [create_sphere_vertices_eq PI cos sin N fuel hR hf, Option.map_some']
  unfold update_index_buffer
  have hne : ((List.range (N / 2 + 1)).flatMap
      (fun i => (List.range (N + 1)).map (fun j => grid_vertex PI cos sin N i j))).isEmpty
        = false := by
    rw [hdiv]
    simp [List.range_succ_eq_map]
  rw [hne]
  have hidx : index_loop N = [] := by
    rw [index_loop_eq, hdiv]
    simp
  simp [hidx]

/-! ## The claims on the vertex buffer -/

/-- C4 (amended): for every N with 2 <= N < 2^32 - 1, `create_sphere_vertices` returns
(with enough fuel) exactly `(N/2 + 1) * (N + 1)` vertices, stored row-major: the vertex
of the grid cell `(i, j)` is at position `i * (N + 1) + j`. -/
theorem C4_vertex_grid {F : Type} [Field F] (PI : F) (cos sin : F → F) (N fuel : Nat)
    (hN : 2 ≤ N) (hR : N + 1 < UINT_RANGE) (hf : N + 1 < fuel) :
    ∃ v, create_sphere_vertices PI cos sin fuel N = some v ∧
      v.length = (N / 2 + 1) * (N + 1) ∧
      ∀ i j, i ≤ N / 2 → j ≤ N →
        v[i * (N + 1) + j]? = some (grid_vertex PI cos sin N i j) := by
  have _ := hN
  exact ⟨_, create_sphere_vertices_eq PI cos sin N fuel hR hf,
    (grid_layout PI cos sin N).1, (grid_layout PI cos sin N).2⟩

/-- Witness of C4 at N = 50 over the reals: 26 * 51 = 1326 vertices. -/
theorem C4_vertex_grid_witness :
    ∃ v, create_sphere_vertices Real.pi Real.cos Real.sin 52 50 = some v ∧
      v.length = 1326 ∧
      ∀ i j, i ≤ 50 / 2 → j ≤ 50 →
        v[i * (50 + 1) + j]? = some (grid_vertex Real.pi Real.cos Real.sin 50 i j) :=
  C4_vertex_grid Real.pi Real.cos Real.sin 50 52 (by decide) (by decide) (by decide)

/-- C4 as stated fails at N = 2^32 - 1: the column counter `j` wraps before it can
exceed `NUM_TESS`, so `create_sphere_vertices` returns for no amount of fuel. -/
theorem C4_counterexample :
    ¬ ∃ fuel v, create_sphere_vertices Real.pi Real.cos Real.sin fuel 4294967295 = some v := by
  rintro ⟨fuel, v, h⟩
  cases fuel with
  | zero => simp [create_sphere_vertices, for_le, for_le_from] at h
  | succ f =>
    have hrow : row_body Real.pi Real.cos Real.sin (f + 1) 4294967295 0 [] = none :=
      for_le_from_wrap _ (fun _ _ => ⟨_, rfl⟩) (f + 1) 0 [] (by decide)
    rw [create_sphere_vertices, for_le, for_le_from, if_pos (Nat.zero_le _), hrow] at h
    simp at h

/-- C5 (amended): for N = 0 and N = 1 the mesh build takes no error branch:
`create_sphere_vertices` returns `N + 1` vertices, and `update_index_buffer` uploads
them together with an empty index sequence. -/
theorem C5_small_N_uploads {F : Type} [Field F] (PI : F) (cos sin : F → F) (N fuel : Nat)
    (hN : N < 2) (hf : N + 1 < fuel) :
    (∃ v, build_mesh PI cos sin fuel N = some (.ok (v, [])) ∧ v.length = N + 1) ∧
      ∀ msg, build_mesh PI cos sin fuel N ≠ some (.error msg) := by
  obtain ⟨v, hv, hl⟩ := build_mesh_small PI cos sin N fuel hN hf
  refine ⟨⟨v, hv, hl⟩, ?_⟩
  intro msg h
  rw [hv] at h
  cases h

/-- Witness of C5 (amended) at N = 1 over the reals. -/
theorem C5_small_N_uploads_witness :
    (∃ v, build_mesh Real.pi Real.cos Real.sin 3 1 = some (.ok (v, [])) ∧ v.length = 1 + 1) ∧
      ∀ msg, build_mesh Real.pi Real.cos Real.sin 3 1 ≠ some (.error msg) :=
  C5_small_N_uploads Real.pi Real.cos Real.sin 1 3 (by decide) (by decide)

/-- C5 as stated fails at N = 0: the build does not end in the error branch, it
uploads one vertex and an empty index sequence. -/
theorem C5_counterexample :
    ∃ v, build_mesh Real.pi Real.cos Real.sin 2 0 = some (.ok (v, [])) ∧ v.length = 1 :=
  build_mesh_small Real.pi Real.cos Real.sin 0 2 (by decide) (by decide)

/-- C6: over the reals, for every even N >= 2 and every row i <= N/2, the vertices that
`create_sphere_vertices` stores for the grid cells `(i, 0)` and `(i, N)` have equal
position and equal normal, texture coordinate u = 0 and u = 1, and equal v. -/
theorem C6_seam_duplicated (N i fuel : Nat) (hN : 2 ≤ N) (he : N % 2 = 0)
    (hR : N < UINT_RANGE) (hi : i ≤ N / 2) (hf : N + 1 < fuel) :
    ∃ v a b, create_sphere_vertices Real.pi Real.cos Real.sin fuel N = some v ∧
      v[i * (N + 1) + 0]? = some a ∧ v[i * (N + 1) + N]? = some b ∧
      a.pos = b.pos ∧ a.norm = b.norm ∧
      a.tex.x = 0 ∧ b.tex.x = 1 ∧ b.tex.x - a.tex.x = 1 ∧ a.tex.y = b.tex.y := by
  have hR1 : N + 1 < UINT_RANGE := by unfold UINT_RANGE at hR ⊢; omega
  have hN0 : (N : ℝ) ≠ 0 := by
    have : (0 : ℝ) < N := by exact_mod_cast (by omega : 0 < N)
    exact ne_of_gt this
  have h2pi : Real.pi * 2 * (N : ℝ) / (N : ℝ) = 2 * Real.pi := by
    field_simp
    ring
  have hpi : (2 * Real.pi) ≠ 0 := by positivity
  refine ⟨_, grid_vertex Real.pi Real.cos Real.sin N i 0,
    grid_vertex Real.pi Real.cos Real.sin N i N,
    create_sphere_vertices_eq Real.pi Real.cos Real.sin N fuel hR1 hf,
    (grid_layout Real.pi Real.cos Real.sin N).2 i 0 hi (by omega),
    (grid_layout Real.pi Real.cos Real.sin N).2 i N hi (le_refl _), ?_, ?_, ?_, ?_, ?_, ?_⟩
  all_goals simp [grid_vertex, h2pi, hpi]

/-- Witness of C6 at N = 50, in the equator row i = 12. -/
theorem C6_seam_duplicated_witness :
    ∃ v a b, create_sphere_vertices Real.pi Real.cos Real.sin 52 50 = some v ∧
      v[12 * (50 + 1) + 0]? = some a ∧ v[12 * (50 + 1) + 50]? = some b ∧
      a.pos = b.pos ∧ a.norm = b.norm ∧
      a.tex.x = 0 ∧ b.tex.x = 1 ∧ b.tex.x - a.tex.x = 1 ∧ a.tex.y = b.tex.y :=
  C6_seam_duplicated 50 12 52 (by decide) (by decide) (by decide) (by decide) (by decide)

/-- With a non-empty vertex sequence `update_index_buffer` takes no early return and
uploads the vertices with the sequence of the index loop. -/
theorem update_index_buffer_ok {V : Type} (N : Nat) (vertices : List V)
    (hv : 0 < vertices.length) :
    update_index_buffer N vertices = .ok (vertices, index_loop N) := by
  unfold update_index_buffer
  cases vertices with
  | nil => simp at hv
  | cons x xs => simp

/-- C10: for every even N >= 4 whose draw count does not wrap, the mesh build of
`user_init` ends in the two uploads of `update_index_buffer` (no early return), the
uploaded index sequence is the one the index loop built, the index count that `render`
draws is at most its length, it is longer by exactly `3 * N` entries, and the entries
past the draw count are exactly the two triangles (A, B, C), (C, B, D) of every quad
`j >= N/2` of the last strip `i = N/2 - 1`, in loop order. The same holds for
`update_index_buffer` on any non-empty vertex sequence. -/
theorem C10_draw_within_upload {F : Type} [Field F] (PI : F) (cos sin : F → F)
    (N fuel : Nat) (hN : 4 ≤ N) (he : N % 2 = 0)
    (hw : N * (N / 2 - 1) * 6 < UINT_RANGE) (hf : N + 1 < fuel) :
    (∃ v indices, create_sphere_vertices PI cos sin fuel N = some v ∧
      update_index_buffer N v = .ok (v, indices) ∧
      build_mesh PI cos sin fuel N = some (.ok (v, indices)) ∧
      indices = index_loop N ∧
      render_index_count N ≤ indices.length ∧
      indices.length = render_index_count N + 3 * N ∧
      indices.drop (render_index_count N) =
        (List.range' (N / 2) (N / 2)).flatMap (fun j =>
          [(N / 2 - 1) * (N + 1) + j, (N / 2 - 1 + 1) * (N + 1) + j,
           (N / 2 - 1) * (N + 1) + j + 1,
           (N / 2 - 1) * (N + 1) + j + 1, (N / 2 - 1 + 1) * (N + 1) + j,
           (N / 2 - 1 + 1) * (N + 1) + j + 1])) ∧
    (∀ vertices : List (vertex F), 0 < vertices.length →
      ∃ indices, update_index_buffer N vertices = .ok (vertices, indices) ∧
        render_index_count N ≤ indices.length ∧
        indices.length = render_index_count N + 3 * N ∧
        indices.drop (render_index_count N) =
          (List.range' (N / 2) (N / 2)).flatMap (fun j =>
            [(N / 2 - 1) * (N + 1) + j, (N / 2 - 1 + 1) * (N + 1) + j,
             (N / 2 - 1) * (N + 1) + j + 1,
             (N / 2 - 1) * (N + 1) + j + 1, (N / 2 - 1 + 1) * (N + 1) + j,
             (N / 2 - 1 + 1) * (N + 1) + j + 1])) := by
  obtain ⟨h1, h2, h3⟩ := index_loop_tail N hN he hw
  have hR : N + 1 < UINT_RANGE := by
    have h4 : 1 ≤ N / 2 - 1 := by omega
    have h5 : N * 1 ≤ N * (N / 2 - 1) := Nat.mul_le_mul_left _ h4
    omega
  have hcreate := create_sphere_vertices_eq PI cos sin N fuel hR hf
  have hlen := (grid_layout PI cos sin N).1
  have hpos : 0 < ((List.range (N / 2 + 1)).flatMap
      (fun i => (List.range (N + 1)).map (fun j => grid_vertex PI cos sin N i j))).length := by
    rw [hlen]
    exact Nat.mul_pos (by omega) (by omega)
  have hup := update_index_buffer_ok N _ hpos
  refine ⟨⟨_, index_loop N, hcreate, hup, ?_, rfl, h1, h2, h3⟩, ?_⟩
  · unfold build_mesh
    rw [hcreate, Option.map_some', hup]
  · intro vertices hv
    exact ⟨index_loop N, update_index_buffer_ok N vertices hv, h1, h2, h3⟩

/-- Witness of C10 at N = 4 over the reals: the build uploads 36 indices, 24 of them
are drawn, and the twelve left over are the four triangles of the quads `j = 2, 3` of
the strip `i = 1`. -/
theorem C10_draw_within_upload_witness :
    ∃ v indices, create_sphere_vertices Real.pi Real.cos Real.sin 6 4 = some v ∧
      update_index_buffer 4 v = .ok (v, indices) ∧
      build_mesh Real.pi Real.cos Real.sin 6 4 = some (.ok (v, indices)) ∧
      indices = index_loop 4 ∧
      render_index_count 4 ≤ indices.length ∧
      indices.length = render_index_count 4 + 3 * 4 ∧
      indices.drop (render_index_count 4) =
        (List.range' (4 / 2) (4 / 2)).flatMap (fun j =>
          [(4 / 2 - 1) * (4 + 1) + j, (4 / 2 - 1 + 1) * (4 + 1) + j,
           (4 / 2 - 1) * (4 + 1) + j + 1,
           (4 / 2 - 1) * (4 + 1) + j + 1, (4 / 2 - 1 + 1) * (4 + 1) + j,
           (4 / 2 - 1 + 1) * (4 + 1) + j + 1]) :=
  (C10_draw_within_upload Real.pi Real.cos Real.sin 4 6 (by decide) (by decide)
    (by decide) (by decide)).1

/-! ## The claims on the key handler and the frame transforms -/

/-- C7: a press of D maps `color_xy` 3 to 1, 1 to 2 and 2 to 3 and changes nothing
else; from the initial value 3 the successive values are 1, 2, 3, 1; the set {1, 2, 3}
is closed under the press and three presses return each of its values to itself. -/
theorem C7_color_cycle {F : Type} [Field F] (g : Globals F) :
    (g.color_xy = 3 → (keyboard GLFW_KEY_D GLFW_PRESS g).color_xy = 1) ∧
    (g.color_xy = 1 → (keyboard GLFW_KEY_D GLFW_PRESS g).color_xy = 2) ∧
    (g.color_xy = 2 → (keyboard GLFW_KEY_D GLFW_PRESS g).color_xy = 3) ∧
    (g.color_xy = 1 ∨ g.color_xy = 2 ∨ g.color_xy = 3 →
      ((keyboard GLFW_KEY_D GLFW_PRESS g).color_xy = 1 ∨
        (keyboard GLFW_KEY_D GLFW_PRESS g).color_xy = 2 ∨
        (keyboard GLFW_KEY_D GLFW_PRESS g).color_xy = 3) ∧
      keyboard GLFW_KEY_D GLFW_PRESS
        (keyboard GLFW_KEY_D GLFW_PRESS (keyboard GLFW_KEY_D GLFW_PRESS g)) = g) ∧
    (initial_globals F).color_xy = 3 ∧
    (keyboard GLFW_KEY_D GLFW_PRESS (initial_globals F)).color_xy = 1 ∧
    (keyboard GLFW_KEY_D GLFW_PRESS
      (keyboard GLFW_KEY_D GLFW_PRESS (initial_globals F))).color_xy = 2 ∧
    (keyboard GLFW_KEY_D GLFW_PRESS (keyboard GLFW_KEY_D GLFW_PRESS
      (keyboard GLFW_KEY_D GLFW_PRESS (initial_globals F)))).color_xy = 3 ∧
    (keyboard GLFW_KEY_D GLFW_PRESS (keyboard GLFW_KEY_D GLFW_PRESS
      (keyboard GLFW_KEY_D GLFW_PRESS
        (keyboard GLFW_KEY_D GLFW_PRESS (initial_globals F))))).color_xy = 1 := by
  have hD : ∀ h : Globals F, keyboard GLFW_KEY_D GLFW_PRESS h =
      { h with color_xy := if h.color_xy = 3 then 1 else h.color_xy + 1 } := by
    intro h
    simp [keyboard, GLFW_KEY_D, GLFW_PRESS, GLFW_KEY_ESCAPE, GLFW_KEY_Q, GLFW_KEY_H,
      GLFW_KEY_F1]
  refine ⟨?_, ?_, ?_, ?_, ?_, ?_, ?_, ?_, ?_⟩
  · intro h; simp [hD, h]
  · intro h; simp [hD, h]
  · intro h; simp [hD, h]
  · obtain ⟨c, t0, t1, th, r, w, sc⟩ := g
    rintro (h | h | h) <;> simp only [] at h <;> subst h <;> simp [hD]
  · rfl
  · simp [hD, initial_globals]
  · simp [hD, initial_globals]
  · simp [hD, initial_globals]
  · simp [hD, initial_globals]

/-- Witness of C7: the four presses from the initial state, over the rationals. -/
theorem C7_color_cycle_witness :
    (keyboard GLFW_KEY_D GLFW_PRESS (initial_globals ℚ)).color_xy = 1 ∧
    (keyboard GLFW_KEY_D GLFW_PRESS
      (keyboard GLFW_KEY_D GLFW_PRESS (initial_globals ℚ))).color_xy = 2 :=
  ⟨(C7_color_cycle (initial_globals ℚ)).2.2.2.2.2.1,
   (C7_color_cycle (initial_globals ℚ)).2.2.2.2.2.2.1⟩

theorem frame_fields (now last : ℝ) (g : Globals ℝ) (h0 : g.t0 = last * 0.4) :
    (frame now g).t0 = now * 0.4 ∧ (frame now g).b_rotate = g.b_rotate ∧
    (frame now g).theta = if g.b_rotate then g.theta + 0.4 * (now - last) else g.theta := by
  unfold frame render update
  cases hb : g.b_rotate <;> simp [hb, h0]
  ring

theorem frames_theta (pre : List ℝ) :
    ∀ (t last : ℝ) (g : Globals ℝ), g.t0 = last * 0.4 →
      (frames (pre ++ [t]) g).theta =
        if g.b_rotate then g.theta + 0.4 * (t - last) else g.theta := by
  induction pre with
  | nil =>
    intro t last g h0
    simpa [frames] using (frame_fields t last g h0).2.2
  | cons now rest ih =>
    intro t last g h0
    obtain ⟨h1, h2, h3⟩ := frame_fields now last g h0
    have := ih t now (frame now g) h1
    simp only [frames, List.cons_append, List.foldl_cons] at this ⊢
    rw [this, h2, h3]
    cases g.b_rotate <;> simp
    ring

/-- C8: over the reals, with `t0 = 0.4 * last_now` left by the preceding update, one
frame at clock value `now` changes theta to `theta + 0.4 * (now - last_now)` when
rotation is enabled and leaves it unchanged when disabled; K consecutive frames whose
last clock value is `t` add `0.4 * (t - last_now)` when rotation is enabled and nothing
when disabled; a press of R flips `b_rotate` and leaves theta as it is. -/
theorem C8_theta_integration (g : Globals ℝ) (last_now : ℝ) (h0 : g.t0 = last_now * 0.4) :
    (∀ now, g.b_rotate = true → (frame now g).theta = g.theta + 0.4 * (now - last_now)) ∧
    (∀ now, g.b_rotate = false → (frame now g).theta = g.theta) ∧
    (∀ pre t, g.b_rotate = true →
      (frames (pre ++ [t]) g).theta = g.theta + 0.4 * (t - last_now)) ∧
    (∀ pre t, g.b_rotate = false → (frames (pre ++ [t]) g).theta = g.theta) ∧
    (keyboard GLFW_KEY_R GLFW_PRESS g).theta = g.theta ∧
    (keyboard GLFW_KEY_R GLFW_PRESS g).b_rotate = !g.b_rotate := by
  refine ⟨?_, ?_, ?_, ?_, ?_, ?_⟩
  · intro now hb
    rw [(frame_fields now last_now g h0).2.2, hb]
    simp
  · intro now hb
    rw [(frame_fields now last_now g h0).2.2, hb]
    simp
  · intro pre t hb
    rw [frames_theta pre t last_now g h0, hb]
    simp
  · intro pre t hb
    rw [frames_theta pre t last_now g h0, hb]
    simp
  · simp [keyboard, GLFW_KEY_R, GLFW_PRESS, GLFW_KEY_ESCAPE, GLFW_KEY_Q, GLFW_KEY_H,
      GLFW_KEY_F1, GLFW_KEY_D]
  · simp [keyboard, GLFW_KEY_R, GLFW_PRESS, GLFW_KEY_ESCAPE, GLFW_KEY_Q, GLFW_KEY_H,
      GLFW_KEY_F1, GLFW_KEY_D]

/-- Witness of C8: after `user_init` at clock 1 and a press of R, three frames at the
clock values 2, 3, 5 turn theta from 0 to `0.4 * (5 - 1)`. -/
theorem C8_theta_integration_witness :
    (frames ([2, 3] ++ [5])
      (keyboard GLFW_KEY_R GLFW_PRESS (user_init_clock 1 (initial_globals ℝ)))).theta
      = (keyboard GLFW_KEY_R GLFW_PRESS (user_init_clock 1 (initial_globals ℝ))).theta
        + 0.4 * (5 - 1) :=
  (C8_theta_integration
    (keyboard GLFW_KEY_R GLFW_PRESS (user_init_clock 1 (initial_globals ℝ))) 1
    (by simp [keyboard, user_init_clock, GLFW_KEY_R, GLFW_PRESS, GLFW_KEY_ESCAPE,
      GLFW_KEY_Q, GLFW_KEY_H, GLFW_KEY_F1, GLFW_KEY_D])).2.2.1 [2, 3] 5
    (by simp [keyboard, user_init_clock, initial_globals, GLFW_KEY_R, GLFW_PRESS,
      GLFW_KEY_ESCAPE, GLFW_KEY_Q, GLFW_KEY_H, GLFW_KEY_F1, GLFW_KEY_D])

theorem aspect_matrix_diag {F : Type} [LinearOrderedField F] (width height : Int) :
    (aspect_matrix width height : Matrix (Fin 4) (Fin 4) F) =
      Matrix.diagonal ![min (1 / ((width : F) / (height : F))) 1,
        min ((width : F) / (height : F)) 1, 1, 1] := by
  ext i j
  fin_cases i <;> fin_cases j <;> simp [aspect_matrix] <;> rfl

/-- C9: for every window of positive width and height, with `a = width / height` an
exact rational, the aspect matrix of `update` is `diag(min(1/a, 1), min(a, 1), 1, 1)`,
that is `diag(height/width, 1, 1, 1)` for a wide window and `diag(1, width/height, 1, 1)`
for a tall one; for 1280x720 it is `diag(720/1280, 1, 1, 1)`, for 720x1280
`diag(1, 720/1280, 1, 1)`. -/
theorem C9_aspect_matrix (width height : Int) (hw : 0 < width) (hh : 0 < height) :
    (aspect_matrix width height : Matrix (Fin 4) (Fin 4) ℚ) =
      Matrix.diagonal ![min (1 / ((width : ℚ) / (height : ℚ))) 1,
        min ((width : ℚ) / (height : ℚ)) 1, 1, 1] ∧
    (height ≤ width → (aspect_matrix width height : Matrix (Fin 4) (Fin 4) ℚ) =
      Matrix.diagonal ![(height : ℚ) / (width : ℚ), 1, 1, 1]) ∧
    (width ≤ height → (aspect_matrix width height : Matrix (Fin 4) (Fin 4) ℚ) =
      Matrix.diagonal ![1, (width : ℚ) / (height : ℚ), 1, 1]) ∧
    (aspect_matrix 1280 720 : Matrix (Fin 4) (Fin 4) ℚ) =
      Matrix.diagonal ![720 / 1280, 1, 1, 1] ∧
    (aspect_matrix 720 1280 : Matrix (Fin 4) (Fin 4) ℚ) =
      Matrix.diagonal ![1, 720 / 1280, 1, 1] := by
  have hwq : (0 : ℚ) < (width : ℚ) := by exact_mod_cast hw
  have hhq : (0 : ℚ) < (height : ℚ) := by exact_mod_cast hh
  have hinv : 1 / ((width : ℚ) / (height : ℚ)) = (height : ℚ) / (width : ℚ) := by
    rw [one_div, inv_div]
  refine ⟨aspect_matrix_diag width height, ?_, ?_, ?_, ?_⟩
  · intro hle
    have hleq : (height : ℚ) ≤ (width : ℚ) := by exact_mod_cast hle
    have h1 : (height : ℚ) / (width : ℚ) ≤ 1 := (div_le_one hwq).mpr hleq
    have h2 : 1 ≤ (width : ℚ) / (height : ℚ) := (one_le_div hhq).mpr hleq
    rw [aspect_matrix_diag, hinv, min_eq_left h1, min_eq_right h2]
  · intro hle
    have hleq : (width : ℚ) ≤ (height : ℚ) := by exact_mod_cast hle
    have h1 : (width : ℚ) / (height : ℚ) ≤ 1 := (div_le_one hhq).mpr hleq
    have h2 : 1 ≤ (height : ℚ) / (width : ℚ) := (one_le_div hwq).mpr hleq
    rw [aspect_matrix_diag, hinv, min_eq_right h2, min_eq_left h1]
  · rw [aspect_matrix_diag]
    have h1 : min (1 / (((1280 : Int) : ℚ) / ((720 : Int) : ℚ))) 1 = 720 / 1280 := by
      norm_num
    have h2 : min (((1280 : Int) : ℚ) / ((720 : Int) : ℚ)) 1 = 1 := by
      norm_num
    rw [h1, h2]
  · rw [aspect_matrix_diag]
    have h1 : min (1 / (((720 : Int) : ℚ) / ((1280 : Int) : ℚ))) 1 = 1 := by
      norm_num
    have h2 : min (((720 : Int) : ℚ) / ((1280 : Int) : ℚ)) 1 = 720 / 1280 := by
      norm_num
    rw [h1, h2]

/-- Witness of C9 at the initial window size 1280x720. -/
theorem C9_aspect_matrix_witness :
    (aspect_matrix 1280 720 : Matrix (Fin 4) (Fin 4) ℚ) =
      Matrix.diagonal ![720 / 1280, 1, 1, 1] :=
  (C9_aspect_matrix 1280 720 (by decide) (by decide)).2.2.2.1

end PlanetInSpace
